import Mathlib

/-!
Verification development for `src/mirror_playlists.py`.

The script is embedded shallowly:

* Python strings are `List Char` (`Str`); `str.replace` is `replaceAll`,
  the substring test `pat in s` is `containsSub`.
* The regular expression `tvg-logo="(https?://epg\.one/img/([^"]+))"` together
  with `re.search` is `searchIcon`: it scans for the leftmost position where
  the literal pattern matches, the greedy `[^"]+` group being the maximal
  run of non-quote characters that is non-empty and followed by a quote.
* The per-line rewriting body of `main` (lines 81-96) is `processLine`; the
  ordered Python dict `original_icons` is an association list with
  update-in-place / append-at-end insertion (`dictInsert`); the whole
  per-source loop of `main` (lines 69-113) is `processSources`, where each
  fetch outcome is an oracle value (`none` models `requests.RequestException`,
  which includes non-2xx statuses via `raise_for_status`).
* `download_icon_batch` (lines 121-136) turns each item's try-block into an
  `Except Unit Unit` oracle; the shared `timeout_handler.is_timeout` flag is
  an observed boolean per check point.
* The harvest loop of `run_download_worker` (lines 163-178) consumes a list
  of `HEvent`s: either `as_completed` yields a completed batch future (with
  the flag value observed right after, and the outcome of
  `future.result(timeout=60)`), or the `as_completed` overall timeout fires,
  which raises `concurrent.futures.TimeoutError` at the `for` statement,
  outside the inner `try`, and therefore escapes the function (`Except.error`).
-/

abbrev Str := List Char

/-- One icon job: source URL and destination path (an entry of `original_icons`). -/
abbrev Job := Str × Str

/-- Module constant `OUTPUT_DIR` (line 18). -/
def OUTPUT_DIR : Str := "playlists".toList

/-- Module constant `ICONS_SQR_DIR = Path("img")` (line 19). -/
def ICONS_SQR_DIR : Str := "img".toList

/-- Module constant `ICONS_RECT_DIR = Path("img2")` (line 20). -/
def ICONS_RECT_DIR : Str := "img2".toList

/-- Module constant `NEW_ICONS_BASE_URL_SQR` (line 21). -/
def NEW_ICONS_BASE_URL_SQR : Str :=
  "https://raw.githubusercontent.com/KocourKuba/epgone_mirror/master/img/".toList

/-- Module constant `PLAYLIST_URLS` (lines 12-16). -/
def PLAYLIST_URLS : List Str :=
  ["http://epg.one/edem_epg_ico.m3u8".toList,
   "http://epg.one/edem_epg_ico2.m3u8".toList,
   "http://epg.one/edem_epg_ico3.m3u8".toList]

/-- The literal `tvg-logo="` tested by `'tvg-logo="' in line` (line 82). -/
def tvgLit : Str := "tvg-logo=\"".toList

/-- URL prefix of group 1 of the regex, `http` variant (line 83). -/
def httpImgPre : Str := "http://epg.one/img/".toList

/-- URL prefix of group 1 of the regex, `https` variant (line 83). -/
def httpsImgPre : Str := "https://epg.one/img/".toList

/-- The `http` square prefix with its remote segment replaced by `img2`. -/
def httpImg2Pre : Str := "http://epg.one/img2/".toList

/-- The `https` square prefix with its remote segment replaced by `img2`. -/
def httpsImg2Pre : Str := "https://epg.one/img2/".toList

/-- The segment `"/img/"` passed to `str.replace` at line 88. -/
def imgSeg : Str := "/img/".toList

/-- The segment `"/img2/"` passed to `str.replace` at line 88. -/
def img2Seg : Str := "/img2/".toList

/-- Full literal the regex must match at a position, `http` variant. -/
def iconPreHttp : Str := tvgLit ++ httpImgPre

/-- Full literal the regex must match at a position, `https` variant. -/
def iconPreHttps : Str := tvgLit ++ httpsImgPre

/-- Recursion core of `replaceAll`.  The scan consumes at least one character
per step, so a fuel equal to the scanned text's length suffices; the fuel is
only a termination device (the `0, _ :: _` arm is unreachable from
`replaceAll`), used so that the function reduces inside the kernel. -/
def replaceAllGo (old new : Str) : Nat → Str → Str
  | _, [] => []
  | 0, s => s
  | fuel + 1, c :: rest =>
    if old ≠ [] ∧ old.isPrefixOf (c :: rest) then
      new ++ replaceAllGo old new fuel (rest.drop (old.length - 1))
    else
      c :: replaceAllGo old new fuel rest

/-- Python `s.replace(old, new)` (lines 88 and 90): every non-overlapping
occurrence of `old` is replaced, scanning left to right.  The script only
ever passes non-empty `old`; for `old = []` we return `s` unchanged. -/
def replaceAll (old new : Str) (s : Str) : Str :=
  replaceAllGo old new s.length s

/-- Python `pat in s` substring containment (line 82). -/
def containsSub (pat : Str) : Str → Bool
  | [] => pat.isEmpty
  | c :: rest => pat.isPrefixOf (c :: rest) || containsSub pat rest

/-- Greedy tail of the regex after one of the two URL prefixes: `([^"]+)"`.
`rest` is the text after the prefix; the captured path is the maximal run of
non-quote characters, which must be non-empty and followed by a quote.
Returns `(group1, group2)` of the Python match on success. -/
def matchAfter (urlPre rest : Str) : Option (Str × Str) :=
  let path := rest.takeWhile (fun c => c ≠ '"')
  if path ≠ [] ∧ path.length < rest.length then some (urlPre ++ path, path) else none

/-- One attempt of the regex at a fixed start position.  `https?` is decided
by the text itself: at any position at most one of the two literals applies. -/
def matchIconAt (s : Str) : Option (Str × Str) :=
  if iconPreHttps.isPrefixOf s then matchAfter httpsImgPre (s.drop iconPreHttps.length)
  else if iconPreHttp.isPrefixOf s then matchAfter httpImgPre (s.drop iconPreHttp.length)
  else none

/-- `re.search` of the icon regex (line 83): leftmost matching position. -/
def searchIcon : Str → Option (Str × Str)
  | [] => none
  | c :: rest =>
    match matchIconAt (c :: rest) with
    | some r => some r
    | none => searchIcon rest

/-- Python `str.split('/')` on a path string: the segments between slashes,
empty segments included (so `"a//b"` yields `["a", "", "b"]`). -/
def splitSlash : Str → List Str
  | [] => [[]]
  | c :: rest =>
    let r := splitSlash rest
    if c = '/' then [] :: r
    else (c :: r.headD []) :: r.tail

/-- A split segment that pathlib keeps when parsing: non-empty and not `.`. -/
def isRealSeg (seg : Str) : Bool :=
  !seg.isEmpty && !(seg == ['.'])

/-- The parsed segments of a POSIX path string: pathlib splits on `/` and
drops empty and `.` segments (so `a//b`, `a/./b` and `a/b/` all parse to
`[a, b]`; `..` is kept). -/
def pathSegs (s : Str) : List Str :=
  (splitSlash s).filter isRealSeg

/-- Render parsed segments back to text: `'/'.join`. -/
def joinSegs : List Str → Str
  | [] => []
  | [s] => s
  | s :: rest => s ++ '/' :: joinSegs rest

/-- `str(Path(dir) / p)` (lines 87-88; the dict values are `Path` objects,
observable as the rendered path the downloads use).  pathlib semantics: when
`p` starts with `/` it is absolute and `dir` is discarded — the root is `//`
when `p` starts with exactly two slashes (POSIX special case), `/` otherwise;
empty and `.` segments collapse; a relative join with no segments renders as
`.` (unreachable here since `dir` is `img` or `img2`). -/
def destPath (dir p : Str) : Str :=
  if p.take 1 = ['/'] then
    (if p.take 2 = ['/', '/'] ∧ p.take 3 ≠ ['/', '/', '/'] then ['/', '/'] else ['/']) ++
      joinSegs (pathSegs p)
  else if pathSegs dir ++ pathSegs p = [] then ['.']
  else joinSegs (pathSegs dir ++ pathSegs p)

/-- A captured path on which the pathlib join degenerates to plain
concatenation after the directory: non-empty, relative (no leading `/`), and
parsed losslessly (no empty or `.` segments, no trailing slash). -/
def plainPath (p : Str) : Bool :=
  !p.isEmpty && !(p.take 1 == ['/']) && (joinSegs (pathSegs p) == p)

/-- Result of the per-line body of `main` (lines 81-96): the emitted line,
the `original_icons` entries written for it (in write order: square then
rectangular), and the two per-source counters incremented for it. -/
structure LineOut where
  line : Str
  maps : List Job
  replacements_count : Nat
  not_replaced_count : Nat
deriving DecidableEq

/-- The per-line body of `main` (lines 81-96): if the line holds the literal
`tvg-logo="` and the regex matches, the matched URL (group 1) is replaced in
the whole line by `base ++ path` (group 2), and two dict entries are written;
otherwise the line passes through unchanged. -/
def processLine (base : Str) (line : Str) : LineOut :=
  if containsSub tvgLit line then
    match searchIcon line with
    | some (oldUrl, iconPath) =>
      { line := replaceAll oldUrl (base ++ iconPath) line
        maps := [(oldUrl, destPath ICONS_SQR_DIR iconPath),
                 (replaceAll imgSeg img2Seg oldUrl, destPath ICONS_RECT_DIR iconPath)]
        replacements_count := 1
        not_replaced_count := 0 }
    | none =>
      { line := line, maps := [], replacements_count := 0, not_replaced_count := 1 }
  else
    { line := line, maps := [], replacements_count := 0, not_replaced_count := 0 }

/-- Python dict assignment `d[k] = v` on the insertion-ordered dict
`original_icons`: update in place if the key exists, append otherwise. -/
def dictInsert (d : List Job) (k v : Str) : List Job :=
  if k ∈ d.map Prod.fst then
    d.map (fun p => if p.1 = k then (k, v) else p)
  else
    d ++ [(k, v)]

/-- Write a list of dict entries in order (the two writes of lines 87-88). -/
def insertMaps (d : List Job) : List Job → List Job
  | [] => d
  | (k, v) :: ms => insertMaps (dictInsert d k v) ms

/-- The per-source line loop of `main` (lines 78-96): processed lines in
order, the dict after all writes, and the two per-source counters. -/
def processLines (base : Str) (icons : List Job) : List Str → List Str × List Job × Nat × Nat
  | [] => ([], icons, 0, 0)
  | l :: ls =>
    let r := processLine base l
    let rest := processLines base (insertMaps icons r.maps) ls
    (r.line :: rest.1, rest.2.1, r.replacements_count + rest.2.2.1,
     r.not_replaced_count + rest.2.2.2)

/-- Drop everything up to and including the first occurrence of `pat`. -/
def dropAfterFirst (pat : Str) : Str → Str
  | [] => []
  | c :: rest =>
    if pat.isPrefixOf (c :: rest) then (c :: rest).drop pat.length
    else dropAfterFirst pat rest

/-- The scheme separator used to model `urlparse`. -/
def schemeSep : Str := "://".toList

/-- `urlparse(url).path` for the URLs the script handles: the text after the
`scheme://host` part, with any query or fragment cut off. -/
def urlPath (u : Str) : Str :=
  let p :=
    if containsSub schemeSep u then (dropAfterFirst schemeSep u).dropWhile (fun c => c ≠ '/')
    else u
  p.takeWhile (fun c => c ≠ '?' ∧ c ≠ '#')

/-- `os.path.basename(urlparse(url).path)` (line 70). -/
def basename (u : Str) : Str :=
  ((urlPath u).reverse.takeWhile (fun c => c ≠ '/')).reverse

/-- `"\n".join(lines)` (line 105). -/
def joinLines (lines : List Str) : Str :=
  List.intercalate ('\n' :: []) lines

/-- The per-source loop of `main` (lines 69-113).  Each source comes with its
fetch outcome: `none` models `requests.RequestException` (the `except` at
line 112 skips the source), `some lines` the fetched document split into
lines.  Accumulates the written output files `(basename, content)` in order
and the shared `original_icons` dict. -/
def processSources : List (Str × Option (List Str)) → List (Str × Str) → List Job →
    List (Str × Str) × List Job
  | [], files, icons => (files, icons)
  | (_, none) :: rest, files, icons => processSources rest files icons
  | (u, some lines) :: rest, files, icons =>
    let r := processLines NEW_ICONS_BASE_URL_SQR icons lines
    processSources rest (files ++ [(basename u, joinLines r.1)]) r.2.1

/-- Recursion core of `chunks`: every step consumes at least one element
when `n ≠ 0`, so a fuel equal to the list's length suffices; the fuel is
only a termination device (the `0, _ :: _` arm is unreachable from
`chunks`), used so that the function reduces inside the kernel. -/
def chunksGo (n : Nat) : Nat → List α → List (List α)
  | _, [] => []
  | 0, _ => []
  | fuel + 1, x :: xs =>
    if n = 0 then [] else (x :: xs).take n :: chunksGo n fuel (xs.drop (n - 1))

/-- The batch partition `[items[i:i + batch_size] for i in range(0, len(items), batch_size)]`
(line 142).  The script only uses `n = 50`; `n = 0` would be a Python
`ValueError` and is mapped to `[]` to keep the function total. -/
def chunks (n : Nat) (l : List α) : List (List α) :=
  chunksGo n l.length l

/-- Outcome of the guarded body of one item of `download_icon_batch`
(lines 126-135): `ok ()` when the download succeeded, `error ()` when any
exception was raised (caught by the bare `except` at line 134). -/
def fetchOk (oracle : Job → Except Unit Unit) (j : Job) : Bool :=
  match oracle j with
  | .ok _ => true
  | .error _ => false

/-- The item loop of `download_icon_batch` (lines 122-136).  `flag k` is the
value of `timeout_handler.is_timeout` observed at the check before the k-th
item of this batch; a set flag breaks out of the loop, so the remaining items
contribute nothing. -/
def downloadBatchAux (oracle : Job → Except Unit Unit) (flag : Nat → Bool) :
    Nat → List Job → Nat
  | _, [] => 0
  | k, j :: rest =>
    if flag k then 0
    else (if fetchOk oracle j then 1 else 0) + downloadBatchAux oracle flag (k + 1) rest

/-- `download_icon_batch(session, batch_items)` (lines 121-136): the number
of successfully downloaded items of one batch. -/
def download_icon_batch (oracle : Job → Except Unit Unit) (flag : Nat → Bool)
    (batch : List Job) : Nat :=
  downloadBatchAux oracle flag 0 batch

/-- Outcome of `future.result(timeout=60)` for one harvested batch
(lines 168-178): `ok` adds the batch tally, `timeout` is the caught
`TimeoutError` (line 175), `error` any other caught exception (line 177). -/
inductive BatchOutcome
  | ok
  | timeout
  | error
deriving DecidableEq

/-- One step of the harvest loop (lines 163-178): either `as_completed`
yields the future of batch `idx` (with the flag value observed at line 164
and the `future.result` outcome), or the overall `as_completed` timeout
raises `TimeoutError` at the `for` statement itself. -/
inductive HEvent
  | yield (flagSet : Bool) (idx : Nat) (outcome : BatchOutcome)
  | acTimeout
deriving DecidableEq

/-- The tally one harvested future adds to `total_downloaded` (line 169). -/
def ocContrib (f : Nat → Nat) (i : Nat) : BatchOutcome → Nat
  | .ok => f i
  | .timeout => 0
  | .error => 0

/-- The index carried by a `yield` event, if any. -/
def eventIdx : HEvent → Option Nat
  | .yield _ i _ => some i
  | .acTimeout => none

/-- The batch indices yielded by `as_completed` along a schedule. -/
def eventIndices (events : List HEvent) : List Nat :=
  events.filterMap eventIdx

/-- Upper bound on the tally an event can add. -/
def eventContrib (f : Nat → Nat) : HEvent → Nat
  | .yield _ i oc => ocContrib f i oc
  | .acTimeout => 0

/-- The harvest loop of `run_download_worker` (lines 163-178).  `f i` is the
tally of batch `i`.  An `acTimeout` event raises (the `for` statement is
outside the inner `try`); a `yield` with the flag observed set breaks out of
the loop with the tally accumulated so far. -/
def harvest (f : Nat → Nat) : List HEvent → Nat → Except Unit (Nat × Bool)
  | [], total => .ok (total, false)
  | .acTimeout :: _, _ => .error ()
  | .yield flagSet i oc :: rest, total =>
    if flagSet then .ok (total, true)
    else harvest f rest (total + ocContrib f i oc)

/-- The spec's `RunResult` read off the final state of `run_download_worker`:
`len(icons)`, `total_downloaded` (line 180), and whether the run stopped
because the deadline flag was observed set. -/
structure RunResult where
  total_jobs : Nat
  succeeded_count : Nat
  timed_out : Bool
deriving DecidableEq

/-- `run_download_worker(icons)` (lines 138-180): partition the dict items
into batches of 50 and run the harvest loop.  `batchFlags i k` is the flag
value batch `i` observes before its k-th item; `events` is the completion
schedule delivered by `as_completed`. -/
def run_download_worker (oracle : Job → Except Unit Unit) (batchFlags : Nat → Nat → Bool)
    (events : List HEvent) (icons : List Job) : Except Unit RunResult :=
  let items := icons
  let batches := chunks 50 items
  match harvest (fun i => download_icon_batch oracle (batchFlags i) (batches.getD i [])) events 0 with
  | .error e => .error e
  | .ok r => .ok { total_jobs := items.length, succeeded_count := r.1, timed_out := r.2 }

/-- Everything `main` produces that later code or the filesystem can see:
the written playlist files, the merged icon dict, and the download phase
result (`none` when the dict is empty, line 115). -/
structure MainOut where
  files : List (Str × Str)
  icons : List Job
  dl : Option (Except Unit RunResult)

/-- `main()` (lines 50-118).  `repo` is `os.getenv('GITHUB_REPOSITORY')`:
`none` or the empty string abort with `ValueError` before any I/O
(lines 53-55); the value is never used afterwards. -/
def main' (repo : Option Str) (sources : List (Str × Option (List Str)))
    (oracle : Job → Except Unit Unit) (batchFlags : Nat → Nat → Bool)
    (events : List HEvent) : Except Unit MainOut :=
  match repo with
  | none => .error ()
  | some r =>
    if r = [] then .error ()
    else
      let pr := processSources sources [] []
      .ok { files := pr.1, icons := pr.2,
            dl := if pr.2.length ≠ 0 then
                    some (run_download_worker oracle batchFlags events pr.2)
                  else none }

/-! ## Basic equations for the fuel-based functions -/

lemma replaceAllGo_congr (old new : Str) :
    ∀ (fuel : Nat) (fuel' : Nat) (s : Str), s.length ≤ fuel → s.length ≤ fuel' →
      replaceAllGo old new fuel s = replaceAllGo old new fuel' s := by
  intro fuel
  induction fuel with
  | zero =>
    intro fuel' s h h'
    have hs : s = [] := List.length_eq_zero.mp (Nat.le_zero.mp h)
    subst hs
    cases fuel' <;> rfl
  | succ f ih =>
    intro fuel' s h h'
    cases s with
    | nil => cases fuel' <;> rfl
    | cons c rest =>
      cases fuel' with
      | zero => simp at h'
      | succ f' =>
        simp only [List.length_cons, Nat.succ_le_succ_iff] at h h'
        simp only [replaceAllGo]
        by_cases hc : old ≠ [] ∧ old.isPrefixOf (c :: rest)
        · rw [if_pos hc, if_pos hc]
          congr 1
          exact ih f' _ (by simp only [List.length_drop]; omega)
            (by simp only [List.length_drop]; omega)
        · rw [if_neg hc, if_neg hc]
          congr 1
          exact ih f' rest h h'

lemma replaceAll_cons_neg (old new : Str) (c : Char) (rest : Str)
    (h : old.isPrefixOf (c :: rest) = false) :
    replaceAll old new (c :: rest) = c :: replaceAll old new rest := by
  simp only [replaceAll, List.length_cons, replaceAllGo, h, Bool.false_eq_true, and_false,
    if_false]

lemma replaceAll_cons_pos (old new : Str) (c : Char) (rest : Str)
    (h0 : old ≠ []) (h : old.isPrefixOf (c :: rest) = true) :
    replaceAll old new (c :: rest) = new ++ replaceAll old new (rest.drop (old.length - 1)) := by
  simp only [replaceAll, List.length_cons, replaceAllGo, h0, h, ne_eq, not_false_iff,
    true_and, if_true]
  congr 1
  exact replaceAllGo_congr old new rest.length _ _
    (by simp only [List.length_drop]; omega) (le_refl _)

lemma replaceAll_of_not_contains (old new : Str) (s : Str) (h : containsSub old s = false) :
    replaceAll old new s = s := by
  induction s with
  | nil => rfl
  | cons c rest ih =>
    simp only [containsSub, Bool.or_eq_false_iff] at h
    rw [replaceAll_cons_neg old new c rest h.1, ih h.2]

/-! ## Structure of successful regex matches -/

lemma matchAfter_shape (pre rest url path : Str) (h : matchAfter pre rest = some (url, path)) :
    url = pre ++ path := by
  simp only [matchAfter] at h
  split at h
  · rw [Option.some.injEq, Prod.mk.injEq] at h
    rcases h with ⟨h1, h2⟩
    subst h2
    exact h1.symm
  · exact absurd h (by simp)

lemma matchIconAt_shape (s url path : Str) (h : matchIconAt s = some (url, path)) :
    url = httpImgPre ++ path ∨ url = httpsImgPre ++ path := by
  unfold matchIconAt at h
  split at h
  · exact Or.inr (matchAfter_shape _ _ _ _ h)
  · split at h
    · exact Or.inl (matchAfter_shape _ _ _ _ h)
    · exact absurd h (by simp)

lemma matchIconAt_tvg (s : Str) (r : Str × Str) (h : matchIconAt s = some r) :
    tvgLit.isPrefixOf s = true := by
  unfold matchIconAt at h
  rw [List.isPrefixOf_iff_prefix]
  split at h
  · next h1 =>
    rw [List.isPrefixOf_iff_prefix] at h1
    exact List.IsPrefix.trans ⟨httpsImgPre, rfl⟩ h1
  · split at h
    · next h2 =>
      rw [List.isPrefixOf_iff_prefix] at h2
      exact List.IsPrefix.trans ⟨httpImgPre, rfl⟩ h2
    · exact absurd h (by simp)

lemma searchIcon_shape (s url path : Str) (h : searchIcon s = some (url, path)) :
    url = httpImgPre ++ path ∨ url = httpsImgPre ++ path := by
  induction s with
  | nil => simp [searchIcon] at h
  | cons c rest ih =>
    simp only [searchIcon] at h
    rcases hm : matchIconAt (c :: rest) with _ | r
    · rw [hm] at h
      exact ih h
    · rw [hm] at h
      rw [Option.some.injEq] at h
      subst h
      exact matchIconAt_shape _ _ _ hm

lemma containsSub_of_searchIcon (s url path : Str) (h : searchIcon s = some (url, path)) :
    containsSub tvgLit s = true := by
  induction s with
  | nil => simp [searchIcon] at h
  | cons c rest ih =>
    simp only [searchIcon] at h
    simp only [containsSub, Bool.or_eq_true]
    rcases hm : matchIconAt (c :: rest) with _ | r
    · rw [hm] at h
      exact Or.inr (ih h)
    · exact Or.inl (matchIconAt_tvg _ _ hm)

/-! ## Claims C4 and C2: the per-line rewrite -/

/-- C4: a playlist line without the icon attribute literal passes through
`processLine` unchanged with no mapping; a line carrying the literal on which
the regex finds no match also passes through unchanged with no mapping (it is
merely counted as external). -/
theorem C4_untouched_lines (base line : Str) :
    (containsSub tvgLit line = false →
      processLine base line =
        { line := line, maps := [], replacements_count := 0, not_replaced_count := 0 }) ∧
    (containsSub tvgLit line = true → searchIcon line = none →
      processLine base line =
        { line := line, maps := [], replacements_count := 0, not_replaced_count := 1 }) := by
  constructor
  · intro h
    simp [processLine, h]
  · intro h hs
    simp [processLine, h, hs]

/-- Witness for C4 at two concrete lines: one without the attribute, one with
the attribute but a non-matching (external) URL. -/
theorem C4_untouched_lines_witness :
    (containsSub tvgLit "#EXTINF:-1, Channel".toList = false ∧
      processLine NEW_ICONS_BASE_URL_SQR "#EXTINF:-1, Channel".toList =
        { line := "#EXTINF:-1, Channel".toList, maps := [], replacements_count := 0,
          not_replaced_count := 0 }) ∧
    (containsSub tvgLit "tvg-logo=\"http://example.com/a.png\"".toList = true ∧
      searchIcon "tvg-logo=\"http://example.com/a.png\"".toList = none ∧
      processLine NEW_ICONS_BASE_URL_SQR "tvg-logo=\"http://example.com/a.png\"".toList =
        { line := "tvg-logo=\"http://example.com/a.png\"".toList, maps := [],
          replacements_count := 0, not_replaced_count := 1 }) :=
  ⟨⟨by decide, (C4_untouched_lines NEW_ICONS_BASE_URL_SQR _).1 (by decide)⟩,
   ⟨by decide, by decide,
    (C4_untouched_lines NEW_ICONS_BASE_URL_SQR _).2 (by decide) (by decide)⟩⟩

/-- C2: on every line where the regex matches (leftmost match with URL group
`url` and path group `path`), the emitted line is the input with every
occurrence of `url` replaced by `base ++ path`, and exactly two mappings are
emitted, keyed by the square-variant URL as matched and by the
rectangular-variant URL. -/
theorem C2_rewrite_and_mappings (base line url path : Str)
    (h : searchIcon line = some (url, path)) :
    processLine base line =
      { line := replaceAll url (base ++ path) line,
        maps := [(url, destPath ICONS_SQR_DIR path),
                 (replaceAll imgSeg img2Seg url, destPath ICONS_RECT_DIR path)],
        replacements_count := 1, not_replaced_count := 0 } ∧
    (processLine base line).maps.length = 2 ∧
    (processLine base line).maps.map Prod.fst = [url, replaceAll imgSeg img2Seg url] := by
  have hc := containsSub_of_searchIcon line url path h
  refine ⟨?_, ?_, ?_⟩ <;> simp [processLine, hc, h]

/-- Witness for C2 at the spec's end-to-end example: the line
`tvg-logo="http://epg.one/img/x.png"` with mirror base `https://cdn.example/`
rewrites to `tvg-logo="https://cdn.example/x.png"` and emits exactly the
mappings `http://epg.one/img/x.png ↦ img/x.png` and
`http://epg.one/img2/x.png ↦ img2/x.png`. -/
theorem C2_rewrite_and_mappings_witness :
    searchIcon "tvg-logo=\"http://epg.one/img/x.png\"".toList =
      some ("http://epg.one/img/x.png".toList, "x.png".toList) ∧
    processLine "https://cdn.example/".toList "tvg-logo=\"http://epg.one/img/x.png\"".toList =
      { line := "tvg-logo=\"https://cdn.example/x.png\"".toList,
        maps := [("http://epg.one/img/x.png".toList, "img/x.png".toList),
                 ("http://epg.one/img2/x.png".toList, "img2/x.png".toList)],
        replacements_count := 1, not_replaced_count := 0 } :=
  ⟨by decide,
   ((C2_rewrite_and_mappings "https://cdn.example/".toList
      "tvg-logo=\"http://epg.one/img/x.png\"".toList
      "http://epg.one/img/x.png".toList "x.png".toList (by decide)).1).trans (by decide)⟩

/-! ## Claim C3: how the rectangular-variant source URL is formed -/

lemma replace_httpImgPre (p : Str) :
    replaceAll imgSeg img2Seg (httpImgPre ++ p) = httpImg2Pre ++ replaceAll imgSeg img2Seg p := by
  show replaceAll imgSeg img2Seg
      ('h':: 't':: 't':: 'p':: ':':: '/':: '/':: 'e':: 'p':: 'g':: '.':: 'o':: 'n':: 'e':: '/':: 'i':: 'm':: 'g':: '/'::p) =
    httpImg2Pre ++ replaceAll imgSeg img2Seg p
  repeat rw [replaceAll_cons_neg _ _ _ _ (by rfl)]
  rw [replaceAll_cons_pos imgSeg img2Seg '/' ('i':: 'm':: 'g':: '/'::p) (by decide)
    (by simp [imgSeg, List.isPrefixOf])]
  rfl

lemma replace_httpsImgPre (p : Str) :
    replaceAll imgSeg img2Seg (httpsImgPre ++ p) = httpsImg2Pre ++ replaceAll imgSeg img2Seg p := by
  show replaceAll imgSeg img2Seg
      ('h':: 't':: 't':: 'p':: 's':: ':':: '/':: '/':: 'e':: 'p':: 'g':: '.':: 'o':: 'n':: 'e':: '/':: 'i':: 'm':: 'g':: '/'::p) =
    httpsImg2Pre ++ replaceAll imgSeg img2Seg p
  repeat rw [replaceAll_cons_neg _ _ _ _ (by rfl)]
  rw [replaceAll_cons_pos imgSeg img2Seg '/' ('i':: 'm':: 'g':: '/'::p) (by decide)
    (by simp [imgSeg, List.isPrefixOf])]
  rfl

lemma destPath_plain (dir p : Str) (hd : pathSegs dir = [dir]) (hp : plainPath p = true) :
    destPath dir p = dir ++ '/' :: p := by
  simp only [plainPath, Bool.and_eq_true, Bool.not_eq_true'] at hp
  obtain ⟨⟨hne, hrel⟩, hjoin⟩ := hp
  rw [beq_iff_eq] at hjoin
  have hpne : p ≠ [] := by
    intro h0
    rw [h0] at hne
    simp [List.isEmpty] at hne
  have hrel' : ¬ p.take 1 = ['/'] := by
    intro h0
    rw [h0] at hrel
    simp at hrel
  have hsegs : pathSegs p ≠ [] := by
    intro h0
    rw [h0] at hjoin
    exact hpne hjoin.symm
  unfold destPath
  rw [if_neg hrel', hd]
  cases hps : pathSegs p with
  | nil => exact absurd hps hsegs
  | cons s ss =>
    rw [hps] at hjoin
    rw [if_neg (by simp)]
    show joinSegs (dir :: s :: ss) = dir ++ '/' :: p
    rw [show joinSegs (dir :: s :: ss) = dir ++ '/' :: joinSegs (s :: ss) from rfl, hjoin]

/-- C3 counterexample, in two parts.  First, on the matched line whose
captured path is `a/img/b.png` (it contains the substring `/img/`), the
emitted rectangular-variant source URL is
`http://epg.one/img2/a/img2/b.png` — the occurrence of `/img/` inside the
captured path is replaced too, because `str.replace` replaces every
occurrence — and not the URL the claim prescribes,
`http://epg.one/img2/a/img/b.png`, in which only the remote segment directly
after the host is replaced.  Second, the captured path is not preserved
verbatim in the destination either: on the matched line
`tvg-logo="http://epg.one/img//x.png"` the captured path is `/x.png`, and
`Path("img2") / "/x.png"` is the absolute `PosixPath('/x.png')` — the
rectangular destination directory is discarded, so the destination is not
the rectangular directory plus the captured path. -/
theorem C3_counterexample :
    ((processLine NEW_ICONS_BASE_URL_SQR
        "tvg-logo=\"http://epg.one/img/a/img/b.png\"".toList).maps =
      [("http://epg.one/img/a/img/b.png".toList, "img/a/img/b.png".toList),
       ("http://epg.one/img2/a/img2/b.png".toList, "img2/a/img/b.png".toList)] ∧
     "http://epg.one/img2/a/img2/b.png".toList ≠
       "http://epg.one/img2/a/img/b.png".toList) ∧
    ((processLine NEW_ICONS_BASE_URL_SQR
        "tvg-logo=\"http://epg.one/img//x.png\"".toList).maps =
      [("http://epg.one/img//x.png".toList, "/x.png".toList),
       ("http://epg.one/img2//x.png".toList, "/x.png".toList)] ∧
     ("/x.png".toList : Str) ≠ ICONS_RECT_DIR ++ '/' :: "/x.png".toList) :=
  ⟨⟨by decide, by decide⟩, ⟨by decide, by decide⟩⟩

/-- C3 (amended): for every matched icon line, the rectangular-variant
mapping's source URL is the square-variant URL with every (leftmost,
non-overlapping) occurrence of `/img/` replaced by `/img2/` — the remote
segment and any occurrence inside the captured path alike — and its
destination is the pathlib join of the rectangular directory with the
captured path (which discards the directory when the path is absolute and
collapses empty and `.` segments).  When the captured path does not contain
`/img/`, the rectangular source URL is the square prefix with `img2` in
place of `img` followed by the path verbatim; when the captured path is
moreover a plain relative path (non-empty, no leading `/`, no empty or `.`
segments, no trailing slash), the destination is the rectangular directory
plus the path verbatim. -/
theorem C3_rect_source_url (base line url path : Str)
    (h : searchIcon line = some (url, path)) :
    (processLine base line).maps.getD 1 ([], []) =
      (replaceAll imgSeg img2Seg url, destPath ICONS_RECT_DIR path) ∧
    (containsSub imgSeg path = false →
      (url = httpImgPre ++ path ∧ replaceAll imgSeg img2Seg url = httpImg2Pre ++ path) ∨
      (url = httpsImgPre ++ path ∧ replaceAll imgSeg img2Seg url = httpsImg2Pre ++ path)) ∧
    (plainPath path = true →
      destPath ICONS_RECT_DIR path = ICONS_RECT_DIR ++ '/' :: path) := by
  have hc := containsSub_of_searchIcon line url path h
  refine ⟨?_, ?_, ?_⟩
  · simp [processLine, hc, h]
  · intro hp
    rcases searchIcon_shape line url path h with h1 | h1
    · refine Or.inl ⟨h1, ?_⟩
      rw [h1, replace_httpImgPre, replaceAll_of_not_contains _ _ _ hp]
    · refine Or.inr ⟨h1, ?_⟩
      rw [h1, replace_httpsImgPre, replaceAll_of_not_contains _ _ _ hp]
  · intro hpl
    exact destPath_plain ICONS_RECT_DIR path (by decide) hpl

/-- Witness for the amended C3 at the line `tvg-logo="http://epg.one/img/x.png"`,
whose captured path `x.png` holds no `/img/` and is a plain relative path. -/
theorem C3_rect_source_url_witness :
    searchIcon "tvg-logo=\"http://epg.one/img/x.png\"".toList =
      some ("http://epg.one/img/x.png".toList, "x.png".toList) ∧
    containsSub imgSeg "x.png".toList = false ∧
    plainPath "x.png".toList = true ∧
    (processLine NEW_ICONS_BASE_URL_SQR "tvg-logo=\"http://epg.one/img/x.png\"".toList).maps.getD 1
        ([], []) =
      (replaceAll imgSeg img2Seg "http://epg.one/img/x.png".toList,
       destPath ICONS_RECT_DIR "x.png".toList) ∧
    ((("http://epg.one/img/x.png".toList : Str) = httpImgPre ++ "x.png".toList ∧
      replaceAll imgSeg img2Seg "http://epg.one/img/x.png".toList =
        httpImg2Pre ++ "x.png".toList) ∨
     (("http://epg.one/img/x.png".toList : Str) = httpsImgPre ++ "x.png".toList ∧
      replaceAll imgSeg img2Seg "http://epg.one/img/x.png".toList =
        httpsImg2Pre ++ "x.png".toList)) ∧
    destPath ICONS_RECT_DIR "x.png".toList = ICONS_RECT_DIR ++ '/' :: "x.png".toList :=
  ⟨by decide, by decide, by decide,
   (C3_rect_source_url NEW_ICONS_BASE_URL_SQR _ _ _ (by decide)).1,
   (C3_rect_source_url NEW_ICONS_BASE_URL_SQR
      "tvg-logo=\"http://epg.one/img/x.png\"".toList
      "http://epg.one/img/x.png".toList "x.png".toList (by decide)).2.1 (by decide),
   (C3_rect_source_url NEW_ICONS_BASE_URL_SQR
      "tvg-logo=\"http://epg.one/img/x.png\"".toList
      "http://epg.one/img/x.png".toList "x.png".toList (by decide)).2.2 (by decide)⟩

/-! ## Claim C5: the merged dict has no duplicate source URL -/

lemma keys_dictInsert (d : List Job) (k v : Str) :
    (dictInsert d k v).map Prod.fst =
      if k ∈ d.map Prod.fst then d.map Prod.fst else d.map Prod.fst ++ [k] := by
  unfold dictInsert
  by_cases h : k ∈ d.map Prod.fst
  · rw [if_pos h, if_pos h, List.map_map]
    apply List.map_congr_left
    intro p _
    by_cases hp : p.1 = k <;> simp [hp]
  · rw [if_neg h, if_neg h]
    simp

lemma nodup_keys_dictInsert (d : List Job) (k v : Str) (h : (d.map Prod.fst).Nodup) :
    ((dictInsert d k v).map Prod.fst).Nodup := by
  rw [keys_dictInsert]
  split
  · exact h
  · next hk =>
    rw [List.nodup_append]
    refine ⟨h, List.nodup_singleton k, ?_⟩
    intro a ha hb
    rw [List.mem_singleton] at hb
    subst hb
    exact hk ha

lemma nodup_keys_insertMaps (ms : List Job) :
    ∀ d : List Job, (d.map Prod.fst).Nodup → ((insertMaps d ms).map Prod.fst).Nodup := by
  induction ms with
  | nil => intro d h; exact h
  | cons m ms ih =>
    intro d h
    rcases m with ⟨k, v⟩
    exact ih _ (nodup_keys_dictInsert d k v h)

lemma nodup_keys_processLines (base : Str) (lines : List Str) :
    ∀ icons : List Job, (icons.map Prod.fst).Nodup →
      (((processLines base icons lines).2.1).map Prod.fst).Nodup := by
  induction lines with
  | nil => intro icons h; exact h
  | cons l ls ih =>
    intro icons h
    simp only [processLines]
    exact ih _ (nodup_keys_insertMaps _ _ h)

lemma nodup_keys_processSources (srcs : List (Str × Option (List Str))) :
    ∀ (files : List (Str × Str)) (icons : List Job), (icons.map Prod.fst).Nodup →
      (((processSources srcs files icons).2).map Prod.fst).Nodup := by
  induction srcs with
  | nil => intro files icons h; exact h
  | cons s srcs ih =>
    intro files icons h
    rcases s with ⟨u, fetch⟩
    cases fetch with
    | none => exact ih _ _ h
    | some lines =>
      simp only [processSources]
      exact ih _ _ (nodup_keys_processLines _ _ _ h)

lemma dictInsert_idem (d : List Job) (k v : Str) :
    dictInsert (dictInsert d k v) k v = dictInsert d k v := by
  by_cases h : k ∈ d.map Prod.fst
  · have h2 : k ∈ (dictInsert d k v).map Prod.fst := by
      rw [keys_dictInsert, if_pos h]
      exact h
    rw [show dictInsert (dictInsert d k v) k v =
        (dictInsert d k v).map (fun p => if p.1 = k then (k, v) else p) from if_pos h2]
    rw [show dictInsert d k v = d.map (fun p => if p.1 = k then (k, v) else p) from if_pos h]
    rw [List.map_map]
    apply List.map_congr_left
    intro p _
    by_cases hp : p.1 = k <;> simp [hp]
  · have h2 : k ∈ (dictInsert d k v).map Prod.fst := by
      rw [keys_dictInsert, if_neg h]
      simp
    rw [show dictInsert (dictInsert d k v) k v =
        (dictInsert d k v).map (fun p => if p.1 = k then (k, v) else p) from if_pos h2]
    rw [show dictInsert d k v = d ++ [(k, v)] from if_neg h]
    rw [List.map_append]
    have hd : d.map (fun p => if p.1 = k then (k, v) else p) = d := by
      have : ∀ p ∈ d, (fun p : Job => if p.1 = k then (k, v) else p) p = id p := by
        intro p hp
        have : p.1 ≠ k := by
          intro he
          exact h (List.mem_map.mpr ⟨p, hp, he⟩)
        simp [this]
      rw [List.map_congr_left this, List.map_id]
    rw [hd]
    simp

/-- C5: the merged `original_icons` dict handed to the batch scheduler never
holds two entries with the same source URL (Python dict keys are unique), and
re-inserting the same key/value pair — as happens when several playlist lines
reference the same icon URL, the written values being computed from the
matched URL alone — leaves the dict unchanged (last write wins,
idempotently). -/
theorem C5_merged_jobs_dedup (srcs : List (Str × Option (List Str))) (d : List Job)
    (k v : Str) :
    (((processSources srcs [] []).2).map Prod.fst).Nodup ∧
    dictInsert (dictInsert d k v) k v = dictInsert d k v :=
  ⟨nodup_keys_processSources srcs [] [] (by simp), dictInsert_idem d k v⟩

/-! ## Claim C9: one failed source fetch is isolated -/

lemma processSources_skip_failed (u : Str) (post : List (Str × Option (List Str))) :
    ∀ (pre : List (Str × Option (List Str))) (files : List (Str × Str)) (icons : List Job),
      processSources (pre ++ (u, none) :: post) files icons =
        processSources (pre ++ post) files icons := by
  intro pre
  induction pre with
  | nil => intro files icons; rfl
  | cons s pre ih =>
    intro files icons
    rcases s with ⟨u', fetch⟩
    cases fetch with
    | none => simpa only [List.cons_append, processSources] using ih _ _
    | some lines => simpa only [List.cons_append, processSources] using ih _ _

lemma processSources_files_count :
    ∀ (srcs : List (Str × Option (List Str))) (files : List (Str × Str)) (icons : List Job),
      ((processSources srcs files icons).1).length =
        files.length + srcs.countP (fun s => s.2.isSome) := by
  intro srcs
  induction srcs with
  | nil => intro files icons; simp [processSources]
  | cons s srcs ih =>
    intro files icons
    rcases s with ⟨u', fetch⟩
    cases fetch with
    | none =>
      simp only [processSources, ih, List.countP_cons]
      simp
    | some lines =>
      simp only [processSources, ih, List.countP_cons]
      simp [List.length_append]
      omega

/-- C9: a source whose fetch fails (any `requests.RequestException`, e.g. an
HTTP 404 surfaced by `raise_for_status`) is skipped in its entirety — the run
behaves exactly as if that source were absent, so every other source still
produces its output file and contributes its mappings — and the number of
written output files equals the number of sources whose fetch succeeded. -/
theorem C9_failed_fetch_skipped (pre post : List (Str × Option (List Str))) (u : Str) :
    processSources (pre ++ (u, none) :: post) [] [] = processSources (pre ++ post) [] [] ∧
    ∀ srcs : List (Str × Option (List Str)),
      ((processSources srcs [] []).1).length = srcs.countP (fun s => s.2.isSome) := by
  refine ⟨processSources_skip_failed u post pre [] [], ?_⟩
  intro srcs
  simpa using processSources_files_count srcs [] []

/-! ## Claim C10: the value of GITHUB_REPOSITORY never flows into outputs -/

/-- C10: for any two non-empty values of the required environment variable
`GITHUB_REPOSITORY`, `main` produces identical observable outputs — the same
rewritten playlists, the same icon mappings, the same download results: the
variable only gates startup (absence or emptiness aborts) and its value is
never used again; the mirror prefix is the hard-coded constant
`NEW_ICONS_BASE_URL_SQR`. -/
theorem C10_repo_value_irrelevant (sources : List (Str × Option (List Str)))
    (oracle : Job → Except Unit Unit) (batchFlags : Nat → Nat → Bool)
    (events : List HEvent) (r1 r2 : Str) (h1 : r1 ≠ []) (h2 : r2 ≠ []) :
    main' (some r1) sources oracle batchFlags events =
      main' (some r2) sources oracle batchFlags events := by
  simp [main', h1, h2]

/-- Witness for C10 at two concrete repository names. -/
theorem C10_repo_value_irrelevant_witness :
    ("a".toList : Str) ≠ [] ∧ ("b".toList : Str) ≠ [] ∧
    main' (some "a".toList) [("http://epg.one/x.m3u8".toList, none)] (fun _ => .ok ())
        (fun _ _ => false) [] =
      main' (some "b".toList) [("http://epg.one/x.m3u8".toList, none)] (fun _ => .ok ())
        (fun _ _ => false) [] :=
  ⟨by decide, by decide,
   C10_repo_value_irrelevant [("http://epg.one/x.m3u8".toList, none)] (fun _ => .ok ())
     (fun _ _ => false) [] "a".toList "b".toList (by decide) (by decide)⟩

/-! ## Claim C6: the batch partition -/

lemma chunksGo_flatten (n : Nat) (hn : n ≠ 0) :
    ∀ (fuel : Nat) (l : List α), l.length ≤ fuel → (chunksGo n fuel l).flatten = l := by
  intro fuel
  induction fuel with
  | zero =>
    intro l h
    have hl : l = [] := List.length_eq_zero.mp (Nat.le_zero.mp h)
    subst hl
    rfl
  | succ f ih =>
    intro l h
    cases l with
    | nil => rfl
    | cons x xs =>
      simp only [List.length_cons, Nat.succ_le_succ_iff] at h
      have hfuel : (xs.drop (n - 1)).length ≤ f := by
        simp only [List.length_drop]
        omega
      simp only [chunksGo, hn, if_false]
      simp only [List.flatten_cons]
      rw [ih (xs.drop (n - 1)) hfuel]
      cases n with
      | zero => exact absurd rfl hn
      | succ m =>
        simp only [List.take_succ_cons, Nat.succ_sub_one, List.cons_append,
          List.take_append_drop]

lemma chunksGo_eq_nil_iff (n : Nat) (hn : n ≠ 0) (fuel : Nat) (l : List α)
    (h : l.length ≤ fuel) : chunksGo n fuel l = [] ↔ l = [] := by
  cases fuel with
  | zero =>
    have hl : l = [] := List.length_eq_zero.mp (Nat.le_zero.mp h)
    subst hl
    simp [chunksGo]
  | succ f =>
    cases l with
    | nil => simp [chunksGo]
    | cons x xs => simp [chunksGo, hn]

lemma chunksGo_mem_size (n : Nat) (hn : n ≠ 0) :
    ∀ (fuel : Nat) (l : List α), l.length ≤ fuel →
      ∀ b ∈ chunksGo n fuel l, 1 ≤ b.length ∧ b.length ≤ n := by
  intro fuel
  induction fuel with
  | zero =>
    intro l h
    have hl : l = [] := List.length_eq_zero.mp (Nat.le_zero.mp h)
    subst hl
    intro b hb
    simp [chunksGo] at hb
  | succ f ih =>
    intro l h
    cases l with
    | nil => intro b hb; simp [chunksGo] at hb
    | cons x xs =>
      simp only [List.length_cons, Nat.succ_le_succ_iff] at h
      have hfuel : (xs.drop (n - 1)).length ≤ f := by
        simp only [List.length_drop]
        omega
      simp only [chunksGo, hn, if_false]
      intro b hb
      rcases List.mem_cons.mp hb with hb | hb
      · subst hb
        constructor
        · cases n with
          | zero => exact absurd rfl hn
          | succ m => simp [List.take_succ_cons]
        · simp only [List.length_take, List.length_cons]
          omega
      · exact ih _ hfuel b hb

lemma chunksGo_getD_size (n : Nat) (hn : n ≠ 0) :
    ∀ (fuel : Nat) (l : List α), l.length ≤ fuel →
      ∀ i : Nat, i + 1 < (chunksGo n fuel l).length →
        ((chunksGo n fuel l).getD i []).length = n := by
  intro fuel
  induction fuel with
  | zero =>
    intro l h
    have hl : l = [] := List.length_eq_zero.mp (Nat.le_zero.mp h)
    subst hl
    intro i hi
    simp [chunksGo] at hi
  | succ f ih =>
    intro l h
    cases l with
    | nil => intro i hi; simp [chunksGo] at hi
    | cons x xs =>
      simp only [List.length_cons, Nat.succ_le_succ_iff] at h
      have hfuel : (xs.drop (n - 1)).length ≤ f := by
        simp only [List.length_drop]
        omega
      simp only [chunksGo, hn, if_false]
      intro i hi
      cases i with
      | zero =>
        simp only [List.length_cons] at hi
        have hne : chunksGo n f (xs.drop (n - 1)) ≠ [] := by
          intro he
          rw [he] at hi
          simp at hi
        have hxs : xs.drop (n - 1) ≠ [] := by
          intro he
          exact hne ((chunksGo_eq_nil_iff n hn f (xs.drop (n - 1)) hfuel).mpr he)
        have hlen : n - 1 < xs.length := by
          by_contra hc
          exact hxs (List.drop_eq_nil_of_le (by omega))
        simp only [List.getD_cons_zero, List.length_take, List.length_cons]
        omega
      | succ j =>
        simp only [List.getD_cons_succ]
        refine ih (xs.drop (n - 1)) hfuel j ?_
        simp only [List.length_cons] at hi
        omega

/-- C6: the batch partition of the merged job list is exhaustive and
order-preserving — concatenating the batches in submission order
reconstructs the job list — every batch except possibly the last holds
exactly 50 jobs, and every batch (the last included) holds between 1 and 50
jobs. -/
theorem C6_batch_partition (items : List Job) :
    (chunks 50 items).flatten = items ∧
    (∀ i : Nat, i + 1 < (chunks 50 items).length → ((chunks 50 items).getD i []).length = 50) ∧
    (∀ b ∈ chunks 50 items, 1 ≤ b.length ∧ b.length ≤ 50) :=
  ⟨chunksGo_flatten 50 (by omega) items.length items (le_refl _),
   fun i hi => chunksGo_getD_size 50 (by omega) items.length items (le_refl _) i hi,
   fun b hb => chunksGo_mem_size 50 (by omega) items.length items (le_refl _) b hb⟩

/-- Witness for C6 on a 51-job list: two batches, the first of exactly 50. -/
theorem C6_batch_partition_witness :
    (chunks 50 (List.replicate 51 ((['a'], ['a']) : Job))).flatten =
      List.replicate 51 ((['a'], ['a']) : Job) ∧
    0 + 1 < (chunks 50 (List.replicate 51 ((['a'], ['a']) : Job))).length ∧
    ((chunks 50 (List.replicate 51 ((['a'], ['a']) : Job))).getD 0 []).length = 50 :=
  ⟨(C6_batch_partition _).1, by decide,
   (C6_batch_partition (List.replicate 51 (['a'], ['a']))).2.1 0 (by decide)⟩

/-! ## Claim C8: per-item failures inside one batch -/

lemma downloadBatchAux_le (oracle : Job → Except Unit Unit) (flag : Nat → Bool) :
    ∀ (batch : List Job) (k : Nat), downloadBatchAux oracle flag k batch ≤ batch.length := by
  intro batch
  induction batch with
  | nil => intro k; simp [downloadBatchAux]
  | cons j rest ih =>
    intro k
    simp only [downloadBatchAux, List.length_cons]
    by_cases hf : flag k
    · rw [if_pos hf]
      omega
    · rw [if_neg hf]
      have := ih (k + 1)
      by_cases ho : fetchOk oracle j <;> simp [ho] <;> omega

lemma download_icon_batch_le (oracle : Job → Except Unit Unit) (flag : Nat → Bool)
    (batch : List Job) : download_icon_batch oracle flag batch ≤ batch.length :=
  downloadBatchAux_le oracle flag batch 0

lemma downloadBatchAux_false (oracle : Job → Except Unit Unit) (flag : Nat → Bool)
    (hf : ∀ m, flag m = false) :
    ∀ (batch : List Job) (k : Nat),
      downloadBatchAux oracle flag k batch = batch.countP (fetchOk oracle) := by
  intro batch
  induction batch with
  | nil => intro k; simp [downloadBatchAux]
  | cons j rest ih =>
    intro k
    simp only [downloadBatchAux, hf k, Bool.false_eq_true, if_false, List.countP_cons, ih (k + 1)]
    by_cases ho : fetchOk oracle j
    · simp [ho]
      omega
    · simp [ho]

lemma download_icon_batch_false (oracle : Job → Except Unit Unit) (flag : Nat → Bool)
    (hf : ∀ m, flag m = false) (batch : List Job) :
    download_icon_batch oracle flag batch = batch.countP (fetchOk oracle) :=
  downloadBatchAux_false oracle flag hf batch 0

/-- C8: within one batch (with the deadline flag never set, so the loop is
not cut short by cancellation), an item whose guarded body raises — any
exception during directory creation, request or write, modelled as the
oracle returning `error` — contributes zero and the batch simply continues
with the remaining jobs in submission order: the tally over
`pre ++ j :: post` equals the tally over `pre ++ post`.  Moreover the batch
function totals every job's boolean outcome — it returns a count, and no
exception ever leaves it. -/
theorem C8_item_failure_isolated (oracle : Job → Except Unit Unit) (pre post : List Job)
    (j : Job) (h : oracle j = .error ()) :
    download_icon_batch oracle (fun _ => false) (pre ++ j :: post) =
      download_icon_batch oracle (fun _ => false) (pre ++ post) ∧
    ∀ batch : List Job,
      download_icon_batch oracle (fun _ => false) batch = batch.countP (fetchOk oracle) := by
  have hj : fetchOk oracle j = false := by simp [fetchOk, h]
  constructor
  · rw [download_icon_batch_false oracle _ (fun _ => rfl),
      download_icon_batch_false oracle _ (fun _ => rfl),
      List.countP_append, List.countP_append, List.countP_cons, hj]
    simp
  · intro batch
    exact download_icon_batch_false oracle _ (fun _ => rfl) batch

/-- Oracle used by the C8 witness: the job with URL `b` fails, others succeed. -/
def oracleW : Job → Except Unit Unit :=
  fun j => if j.1 = ['b'] then .error () else .ok ()

/-- Witness for C8: dropping the failing middle job does not change the batch
tally, which counts exactly the successful jobs. -/
theorem C8_item_failure_isolated_witness :
    oracleW (['b'], ['y']) = .error () ∧
    download_icon_batch oracleW (fun _ => false)
        ([((['a'], ['x']) : Job)] ++ (['b'], ['y']) :: [(['c'], ['z'])]) =
      download_icon_batch oracleW (fun _ => false) ([((['a'], ['x']) : Job)] ++ [(['c'], ['z'])]) ∧
    download_icon_batch oracleW (fun _ => false)
        ([((['a'], ['x']) : Job)] ++ (['b'], ['y']) :: [(['c'], ['z'])]) = 2 :=
  ⟨rfl, (C8_item_failure_isolated oracleW [(['a'], ['x'])] [(['c'], ['z'])] (['b'], ['y']) rfl).1,
   rfl⟩

/-! ## Claim C7: the final success tally -/

lemma harvest_ok_le (f : Nat → Nat) :
    ∀ (events : List HEvent) (t0 t : Nat) (b : Bool),
      harvest f events t0 = .ok (t, b) → t ≤ t0 + (events.map (eventContrib f)).sum := by
  intro events
  induction events with
  | nil =>
    intro t0 t b h
    simp only [harvest, Except.ok.injEq, Prod.mk.injEq] at h
    omega
  | cons e rest ih =>
    intro t0 t b h
    cases e with
    | acTimeout => simp [harvest] at h
    | yield flagSet i oc =>
      simp only [harvest] at h
      cases flagSet with
      | true =>
        simp only [if_true] at h
        simp only [Except.ok.injEq, Prod.mk.injEq] at h
        simp only [List.map_cons, List.sum_cons]
        omega
      | false =>
        simp only [Bool.false_eq_true, if_false] at h
        have := ih _ _ _ h
        simp only [List.map_cons, List.sum_cons, eventContrib]
        omega

lemma eventContrib_le_sum_indices (f : Nat → Nat) :
    ∀ events : List HEvent,
      (events.map (eventContrib f)).sum ≤ ((eventIndices events).map f).sum := by
  intro events
  induction events with
  | nil => simp [eventIndices]
  | cons e rest ih =>
    cases e with
    | acTimeout =>
      simp only [eventIndices, List.filterMap_cons, eventIdx, List.map_cons, List.sum_cons,
        eventContrib]
      simpa [eventIndices] using ih
    | yield flagSet i oc =>
      simp only [eventIndices, List.filterMap_cons, eventIdx, List.map_cons, List.sum_cons,
        eventContrib]
      have hle : ocContrib f i oc ≤ f i := by
        cases oc <;> simp [ocContrib]
      have := ih
      simp only [eventIndices] at this
      omega

lemma sum_map_le_range (f : Nat → Nat) (l : List Nat) (n : Nat) (hnd : l.Nodup)
    (hlt : ∀ i ∈ l, i < n) : (l.map f).sum ≤ ((List.range n).map f).sum := by
  obtain ⟨l', hperm, hsub⟩ := hnd.subperm (fun i hi => List.mem_range.mpr (hlt i hi))
  calc (l.map f).sum = (l'.map f).sum := ((hperm.map f).sum_eq).symm
    _ ≤ ((List.range n).map f).sum :=
      List.Sublist.sum_le_sum (hsub.map f) (fun a _ => Nat.zero_le a)

lemma map_getD_range (L : List (List α)) :
    (List.range L.length).map (fun i => L.getD i []) = L := by
  induction L with
  | nil => rfl
  | cons a L ih =>
    rw [List.length_cons, List.range_succ_eq_map]
    simp only [List.map_cons, List.getD_cons_zero, List.map_map]
    have hfun : ((fun i => (a :: L).getD i []) ∘ Nat.succ) = fun i => L.getD i [] := by
      funext i
      simp [List.getD_cons_succ]
    rw [hfun, ih]

lemma sum_range_getD (L : List (List α)) (g : List α → Nat) :
    ((List.range L.length).map (fun i => g (L.getD i []))).sum = (L.map g).sum := by
  have h : (List.range L.length).map (fun i => g (L.getD i [])) =
      ((List.range L.length).map (fun i => L.getD i [])).map g := by
    rw [List.map_map]
    rfl
  rw [h, map_getD_range]

lemma harvest_all_ok (f : Nat → Nat) :
    ∀ (events : List HEvent) (t0 : Nat),
      (∀ e ∈ events, ∃ i, e = HEvent.yield false i BatchOutcome.ok) →
      harvest f events t0 = .ok (t0 + ((eventIndices events).map f).sum, false) := by
  intro events
  induction events with
  | nil => intro t0 _; simp [harvest, eventIndices]
  | cons e rest ih =>
    intro t0 h
    obtain ⟨i, rfl⟩ := h e (List.mem_cons_self e rest)
    simp only [harvest, Bool.false_eq_true, if_false]
    rw [ih (t0 + ocContrib f i BatchOutcome.ok)
      (fun e he => h e (List.mem_cons_of_mem _ he))]
    simp only [eventIndices, List.filterMap_cons, eventIdx, List.map_cons, List.sum_cons,
      ocContrib]
    rw [Except.ok.injEq, Prod.mk.injEq]
    exact ⟨by omega, rfl⟩

lemma chunks_flatten_50 (items : List Job) : (chunks 50 items).flatten = items :=
  chunksGo_flatten 50 (by omega) items.length items (le_refl _)

/-- C7: whenever `run_download_worker` returns a result — `as_completed`
yields each pending future at most once, with indices of submitted batches —
the success tally never exceeds the job count; and in a run where no timeout
layer fires (no `as_completed` timeout, the deadline flag never observed, no
per-batch `future.result` timeout or error, every batch harvested), the tally
equals exactly the number of jobs whose individual fetch succeeds. -/
theorem C7_success_tally (oracle : Job → Except Unit Unit) (batchFlags : Nat → Nat → Bool)
    (events : List HEvent) (icons : List Job) (r : RunResult)
    (hnd : (eventIndices events).Nodup)
    (hlt : ∀ i ∈ eventIndices events, i < (chunks 50 icons).length)
    (hrun : run_download_worker oracle batchFlags events icons = .ok r) :
    r.succeeded_count ≤ r.total_jobs ∧
    ((∀ e ∈ events, ∃ i, e = HEvent.yield false i BatchOutcome.ok) →
      (eventIndices events).Perm (List.range (chunks 50 icons).length) →
      (∀ i k, batchFlags i k = false) →
      r.succeeded_count = icons.countP (fetchOk oracle)) := by
  simp only [run_download_worker] at hrun
  rcases hh : harvest
      (fun i => download_icon_batch oracle (batchFlags i) ((chunks 50 icons).getD i []))
      events 0 with e | p
  · rw [hh] at hrun
    exact absurd hrun (by simp)
  · rw [hh] at hrun
    rcases p with ⟨t, b⟩
    rw [Except.ok.injEq] at hrun
    subst hrun
    constructor
    · have h1 := harvest_ok_le _ events 0 t b hh
      have h2 := eventContrib_le_sum_indices
        (fun i => download_icon_batch oracle (batchFlags i) ((chunks 50 icons).getD i []))
        events
      have h3 := sum_map_le_range
        (fun i => download_icon_batch oracle (batchFlags i) ((chunks 50 icons).getD i []))
        (eventIndices events) (chunks 50 icons).length hnd hlt
      have h4 : ((List.range (chunks 50 icons).length).map
            (fun i => download_icon_batch oracle (batchFlags i) ((chunks 50 icons).getD i []))).sum ≤
          ((List.range (chunks 50 icons).length).map
            (fun i => ((chunks 50 icons).getD i []).length)).sum :=
        List.sum_le_sum (fun i _ => download_icon_batch_le oracle (batchFlags i) _)
      have h5 := sum_range_getD (chunks 50 icons) List.length
      have h6 : ((chunks 50 icons).map List.length).sum = icons.length := by
        rw [← List.length_flatten, chunks_flatten_50]
      simp only [RunResult.succeeded_count, RunResult.total_jobs]
      omega
    · intro hok hperm hflags
      have h7 := harvest_all_ok
        (fun i => download_icon_batch oracle (batchFlags i) ((chunks 50 icons).getD i []))
        events 0 hok
      rw [h7, Except.ok.injEq, Prod.mk.injEq] at hh
      obtain ⟨ht, _⟩ := hh
      have h8 : ((eventIndices events).map
            (fun i => download_icon_batch oracle (batchFlags i) ((chunks 50 icons).getD i []))).sum =
          ((List.range (chunks 50 icons).length).map
            (fun i => download_icon_batch oracle (batchFlags i) ((chunks 50 icons).getD i []))).sum :=
        (hperm.map _).sum_eq
      have h9 : ((List.range (chunks 50 icons).length).map
            (fun i => download_icon_batch oracle (batchFlags i) ((chunks 50 icons).getD i []))).sum =
          ((List.range (chunks 50 icons).length).map
            (fun i => ((chunks 50 icons).getD i []).countP (fetchOk oracle))).sum := by
        apply congrArg
        apply List.map_congr_left
        intro i _
        exact download_icon_batch_false oracle (batchFlags i) (fun m => hflags i m) _
      have h10 := sum_range_getD (chunks 50 icons) (fun b => b.countP (fetchOk oracle))
      have h11 : ((chunks 50 icons).map (fun b => b.countP (fetchOk oracle))).sum =
          icons.countP (fetchOk oracle) := by
        rw [← List.countP_flatten, chunks_flatten_50]
      simp only [RunResult.succeeded_count]
      omega

/-- Witness for C7 on a one-job run whose single batch is harvested cleanly:
the tally is 1 of 1. -/
theorem C7_success_tally_witness :
    (eventIndices [HEvent.yield false 0 BatchOutcome.ok]).Nodup ∧
    (∀ i ∈ eventIndices [HEvent.yield false 0 BatchOutcome.ok],
      i < (chunks 50 [((['a'], ['b']) : Job)]).length) ∧
    run_download_worker (fun _ => .ok ()) (fun _ _ => false)
      [HEvent.yield false 0 BatchOutcome.ok] [((['a'], ['b']) : Job)] =
      .ok { total_jobs := 1, succeeded_count := 1, timed_out := false } ∧
    ({ total_jobs := 1, succeeded_count := 1, timed_out := false } : RunResult).succeeded_count ≤
      ({ total_jobs := 1, succeeded_count := 1, timed_out := false } : RunResult).total_jobs ∧
    ({ total_jobs := 1, succeeded_count := 1, timed_out := false } : RunResult).succeeded_count =
      List.countP (fetchOk (fun _ => .ok ())) [((['a'], ['b']) : Job)] := by
  have h := C7_success_tally (fun _ => .ok ()) (fun _ _ => false)
    [HEvent.yield false 0 BatchOutcome.ok] [((['a'], ['b']) : Job)]
    { total_jobs := 1, succeeded_count := 1, timed_out := false }
    (by decide) (by decide) rfl
  refine ⟨by decide, by decide, rfl, h.1, ?_⟩
  refine h.2 ?_ ?_ (fun _ _ => rfl)
  · intro e he
    rw [List.mem_singleton] at he
    exact ⟨0, he⟩
  · exact List.Perm.refl [0]

/-! ## Claim C1: behaviour when the global deadline elapses -/

lemma harvest_flag_break (f : Nat → Nat) :
    ∀ (pre : List HEvent) (t0 : Nat) (i : Nat) (oc : BatchOutcome) (post : List HEvent),
      (∀ e ∈ pre, ∃ j oc2, e = HEvent.yield false j oc2) →
      harvest f (pre ++ HEvent.yield true i oc :: post) t0 =
        .ok (t0 + (pre.map (eventContrib f)).sum, true) := by
  intro pre
  induction pre with
  | nil =>
    intro t0 i oc post _
    simp [harvest]
  | cons e pre ih =>
    intro t0 i oc post h
    obtain ⟨j, oc2, rfl⟩ := h e (List.mem_cons_self e pre)
    simp only [List.cons_append, harvest, Bool.false_eq_true, if_false, List.append_eq]
    rw [ih _ i oc post (fun e he => h e (List.mem_cons_of_mem _ he))]
    simp only [List.map_cons, List.sum_cons, eventContrib]
    rw [Except.ok.injEq, Prod.mk.injEq]
    exact ⟨by omega, rfl⟩

/-- C1 counterexample: the overall `as_completed` timeout is raised at the
`for` statement itself, outside the inner `try`, so it escapes
`run_download_worker` — here a one-job run in which the first harvest wait
times out returns `error` (the escaped `concurrent.futures.TimeoutError`)
instead of a normal result, refuting "no exception escapes for every pattern
of batch completions/timeouts". -/
theorem C1_counterexample :
    run_download_worker (fun _ => .ok ()) (fun _ _ => false) [HEvent.acTimeout]
      [("http://epg.one/img/x.png".toList, "img/x.png".toList)] = .error () := rfl

/-- C1 (amended): provided every harvest wait yields a completed batch before
the `as_completed` deadline (no `as_completed` timeout event), once the
deadline flag is observed set `run_download_worker` stops harvesting — the
events after the flag observation are irrelevant — keeps the partial success
tally of the batches harvested so far (job-level failures and per-batch
result timeouts or errors among them are absorbed, contributing zero), and
returns normally with a result marked timed-out.  Without this proviso the
claim fails: an `as_completed` timeout escapes the function
(`C1_counterexample`). -/
theorem C1_deadline_graceful_return (oracle : Job → Except Unit Unit)
    (batchFlags : Nat → Nat → Bool) (icons : List Job) (pre post : List HEvent)
    (i : Nat) (oc : BatchOutcome)
    (hpre : ∀ e ∈ pre, ∃ j oc2, e = HEvent.yield false j oc2) :
    run_download_worker oracle batchFlags (pre ++ HEvent.yield true i oc :: post) icons =
      run_download_worker oracle batchFlags (pre ++ [HEvent.yield true i oc]) icons ∧
    ∃ t, run_download_worker oracle batchFlags (pre ++ HEvent.yield true i oc :: post) icons =
      .ok { total_jobs := icons.length, succeeded_count := t, timed_out := true } := by
  constructor
  · simp only [run_download_worker]
    rw [harvest_flag_break _ pre 0 i oc post hpre, harvest_flag_break _ pre 0 i oc [] hpre]
  · simp only [run_download_worker]
    rw [harvest_flag_break _ pre 0 i oc post hpre]
    exact ⟨_, rfl⟩

/-- Witness for the amended C1: one batch harvested (with a result timeout
absorbed), then the flag is observed set; a pending `as_completed` timeout
event after that point never fires, and the run returns a timed-out result. -/
theorem C1_deadline_graceful_return_witness :
    (∀ e ∈ [HEvent.yield false 0 BatchOutcome.timeout],
      ∃ j oc2, e = HEvent.yield false j oc2) ∧
    run_download_worker (fun _ => .ok ()) (fun _ _ => false)
        ([HEvent.yield false 0 BatchOutcome.timeout] ++
          HEvent.yield true 1 BatchOutcome.ok :: [HEvent.acTimeout])
        [((['a'], ['b']) : Job)] =
      run_download_worker (fun _ => .ok ()) (fun _ _ => false)
        ([HEvent.yield false 0 BatchOutcome.timeout] ++ [HEvent.yield true 1 BatchOutcome.ok])
        [((['a'], ['b']) : Job)] ∧
    ∃ t, run_download_worker (fun _ => .ok ()) (fun _ _ => false)
        ([HEvent.yield false 0 BatchOutcome.timeout] ++
          HEvent.yield true 1 BatchOutcome.ok :: [HEvent.acTimeout])
        [((['a'], ['b']) : Job)] =
      .ok { total_jobs := 1, succeeded_count := t, timed_out := true } := by
  have hpre : ∀ e ∈ [HEvent.yield false 0 BatchOutcome.timeout],
      ∃ j oc2, e = HEvent.yield false j oc2 := by
    intro e he
    rw [List.mem_singleton] at he
    exact ⟨0, BatchOutcome.timeout, he⟩
  have h := C1_deadline_graceful_return (fun _ => .ok ()) (fun _ _ => false)
    [((['a'], ['b']) : Job)] [HEvent.yield false 0 BatchOutcome.timeout] [HEvent.acTimeout]
    1 BatchOutcome.ok hpre
  exact ⟨hpre, h.1, h.2⟩
